import Mathlib

/-!
Shallow embedding of the zutils id3-rtl-fix core: the RTL script range table
(rtl_utils/script_definitions.py), the per-character classifier and statistics
aggregator (rtl_utils/stats-collector.py), and the RTL segment reverser
(rtl_utils/text_processor.py), together with proofs about them.

Python strings and Lean strings are both sequences of Unicode code points, so
strings embed as String / List Char.  A crucial point of fidelity: in Python the
escape \uXXXX consumes exactly four hex digits, so a source literal written
'ႄ0' denotes the TWO-character string U+1084 followed by '0', not the single
code point U+10840.  Lean's \uXXXX escape has the same four-digit behaviour, so
the literals below, copied verbatim from the source, denote exactly the same
character sequences as in Python.
-/

namespace RtlUtils

/-- RTL_SCRIPTS from rtl_utils/script_definitions.py: each entry is a script name
together with its list of (start, end) bound pairs.  The bounds are Python
strings (not single characters): the entries for the ancient scripts use
five-hex-digit escapes such as 'ႄ0', which Python (and Lean) parse as a
two-character string. -/
def RTL_SCRIPTS : List (String × List (String × String)) := [
  ("Hebrew", [("\u0590", "\u05FF"), ("\uFB1D", "\uFB4F")]),
  ("Arabic", [("\u0600", "\u06FF"), ("\u0750", "\u077F"), ("\u08A0", "\u08FF"),
              ("\uFB50", "\uFDFF"), ("\uFE70", "\uFEFF")]),
  ("Syriac", [("\u0700", "\u074F"), ("\u0860", "\u086F")]),
  ("Thaana", [("\u0780", "\u07BF")]),
  ("NKo", [("\u07C0", "\u07FF")]),
  ("Mandaic", [("\u0840", "\u085F")]),
  ("Samaritan", [("\u0800", "\u083F")]),
  ("Imperial Aramaic", [("\u10840", "\u1085F")]),
  ("Phoenician", [("\u10900", "\u1091F")]),
  ("Nabataean", [("\u10880", "\u108AF")]),
  ("Lydian", [("\u10920", "\u1093F")]),
  ("Meroitic", [("\u10980", "\u1099F"), ("\u109A0", "\u109FF")])]

/-- Python lexicographic string comparison s <= t on code-point sequences:
compare position by position; a proper prefix is smaller. -/
def pyStrLe : List Char → List Char → Bool
  | [], _ => true
  | _ :: _, [] => false
  | a :: as, b :: bs => if a < b then true else if b < a then false else pyStrLe as bs

/-- Membership test start <= char <= end from ScriptStats.count_characters
(stats-collector.py line 22), where char is a one-character string and the bounds
are the table's strings; Python chained comparison of strings. -/
def charInRange (c : Char) (r : String × String) : Bool :=
  pyStrLe r.1.data [c] && pyStrLe [c] r.2.data

/-- The per-character classifier: the loop of ScriptStats.count_characters walks
RTL_SCRIPTS in order and stops at the first script one of whose ranges contains
the character; none means the character falls through to the "Non-RTL" bucket. -/
def classify (c : Char) : Option String :=
  match RTL_SCRIPTS.find? (fun e => e.2.any (fun r => charInRange c r)) with
  | some e => some e.1
  | none => none

/-- State of the statistics aggregator (class ScriptStats, stats-collector.py).
Python defaultdicts are embedded as insertion-ordered association lists; the
nested defaultdict script_by_field maps field names to inner association
lists. -/
structure ScriptStats where
  files_processed : Nat
  files_modified : Nat
  tags_modified : List (String × Nat)
  scripts_found : List (String × Nat)
  script_by_field : List (String × List (String × Nat))
  characters_counted : List (String × Nat)
  errors : List String
deriving DecidableEq

/-- ScriptStats.__init__: every counter zero, every mapping and the error list
empty. -/
def ScriptStats.init : ScriptStats :=
  { files_processed := 0, files_modified := 0, tags_modified := [],
    scripts_found := [], script_by_field := [], characters_counted := [],
    errors := [] }

/-- Embedding of d[k] += 1 on a defaultdict(int): bump the entry if the key is
present, otherwise append a fresh entry with value 1 (Python dicts keep
insertion order). -/
def bump : List (String × Nat) → String → List (String × Nat)
  | [], k => [(k, 1)]
  | (k', v) :: rest, k =>
    if k' = k then (k', v + 1) :: rest else (k', v) :: bump rest k

/-- Loop body of ScriptStats.count_characters: tally one character into the
bucket of the first matching script, or into "Non-RTL" when no script's ranges
contain it. -/
def ScriptStats.countChar (st : ScriptStats) (c : Char) : ScriptStats :=
  { st with characters_counted := bump st.characters_counted ((classify c).getD ("Non-RTL")) }

/-- ScriptStats.count_characters (stats-collector.py lines 18-28): tally every
character of the text. -/
def ScriptStats.count_characters (st : ScriptStats) (text : String) : ScriptStats :=
  text.data.foldl ScriptStats.countChar st

/-- The string built by the comprehension in build_rtl_pattern
(text_processor.py lines 8-15): the concatenation, over all scripts and ranges
in table order, of start ++ "-" ++ end.  Because the ancient-script bounds are
two-character strings, this interleaves stray literal characters and ranges such
as '0'-U+1085 into the class body. -/
def ranges_pattern : String :=
  String.join (RTL_SCRIPTS.map (fun e => String.join (e.2.map (fun r => r.1 ++ "-" ++ r.2))))

/-- build_rtl_pattern's return value: the character class wrapped in brackets
with a + quantifier. -/
def build_rtl_pattern : String :=
  "[" ++ ranges_pattern ++ "]+"

/-- How Python's re module reads the body of a character class that contains no
escapes, no ']' and no leading '^' (true of ranges_pattern): items left to
right, where a character followed by '-' and another character forms an
inclusive range and any other character stands for itself. -/
def parseClass : List Char → List (Char × Char)
  | a :: '-' :: b :: rest => (a, b) :: parseClass rest
  | a :: rest => (a, a) :: parseClass rest
  | [] => []

/-- Membership of a character in the compiled character class of
build_rtl_pattern: some parsed range contains its code point. -/
def isRTLMatch (c : Char) : Bool :=
  (parseClass ranges_pattern.data).any (fun r => decide (r.1 ≤ c) && decide (c ≤ r.2))

/-- Executable embedding of the finditer loop of reverse_rtl_parts: scan the
text once; run accumulates the current maximal match of the class (in reversed
order, so that emitting it performs match.group()[::-1]); characters outside the
class are emitted unchanged.  re.finditer over a pattern of shape C+ yields
exactly the maximal runs of class members, which this scan reproduces. -/
def reverseRunsAux (p : Char → Bool) (run : List Char) : List Char → List Char
  | [] => run
  | c :: cs =>
    if p c then reverseRunsAux p (c :: run) cs
    else run ++ c :: reverseRunsAux p [] cs

/-- Run/gap decomposition of the same scan, phrased with takeWhile/dropWhile:
reverse each maximal run of class members, keep gap characters in place.  Proved
equal to the accumulator version below. -/
def reverseRuns (p : Char → Bool) : List Char → List Char
  | [] => []
  | c :: cs =>
    if p c then
      ((c :: cs).takeWhile p).reverse ++ reverseRuns p ((c :: cs).dropWhile p)
    else
      c :: reverseRuns p cs
termination_by l => l.length
decreasing_by
  · simp only [List.length_cons]
    have h1 : (List.dropWhile p (c :: cs)).length ≤ (c :: cs).length := by
      have h2 := congrArg List.length (List.takeWhile_append_dropWhile (p := p) (l := c :: cs))
      simp only [List.length_append] at h2
      omega
    have h3 : (List.dropWhile p (c :: cs)) = List.dropWhile p cs := by
      simp [List.dropWhile_cons_of_pos, *]
    rw [h3] at h1 ⊢
    have h4 := congrArg List.length (List.takeWhile_append_dropWhile (p := p) (l := cs))
    simp only [List.length_append] at h4
    omega
  · simp

/-- reverse_rtl_parts(text) with stats=None (text_processor.py lines 17-38):
empty text is returned unchanged, otherwise every maximal run of characters of
the compiled class is reversed in place and the rest of the text kept. -/
def reverse_rtl_parts (s : String) : String :=
  if s.data.isEmpty then s else String.mk (reverseRunsAux isRTLMatch [] s.data)

/-- Equation of reverseRuns on the empty list. -/
theorem reverseRuns_nil (p : Char → Bool) : reverseRuns p [] = [] := by
  rw [reverseRuns]

/-- Equation of reverseRuns when the head is not in the class. -/
theorem reverseRuns_cons_neg (p : Char → Bool) (c : Char) (cs : List Char)
    (h : p c = false) : reverseRuns p (c :: cs) = c :: reverseRuns p cs := by
  rw [reverseRuns]
  simp [h]

/-- On any list, reverseRuns first reverses the leading run (possibly empty) and
then continues on the remainder. -/
theorem reverseRuns_eq_take_drop (p : Char → Bool) (l : List Char) :
    reverseRuns p l = (l.takeWhile p).reverse ++ reverseRuns p (l.dropWhile p) := by
  cases l with
  | nil => simp [reverseRuns_nil]
  | cons c cs =>
    by_cases h : p c = true
    · rw [reverseRuns]
      simp [h]
    · have hb : p c = false := by simpa using h
      rw [List.takeWhile_cons_of_neg (by simp [hb]), List.dropWhile_cons_of_neg (by simp [hb])]
      simp

/-- If every element of t is in the class and rest does not start with a class
element, the leading takeWhile/dropWhile decomposition of t ++ rest is (t, rest). -/
theorem take_drop_all_append (p : Char → Bool) (t rest : List Char)
    (ht : ∀ x ∈ t, p x = true)
    (hrest : ∀ c cs, rest = c :: cs → p c = false) :
    (t ++ rest).takeWhile p = t ∧ (t ++ rest).dropWhile p = rest := by
  induction t with
  | nil =>
    simp only [List.nil_append]
    cases rest with
    | nil => simp
    | cons c cs =>
      have hc := hrest c cs rfl
      exact ⟨List.takeWhile_cons_of_neg (by simp [hc]), List.dropWhile_cons_of_neg (by simp [hc])⟩
  | cons a t' ih =>
    have ha : p a = true := ht a (List.mem_cons_self a t')
    obtain ⟨ih1, ih2⟩ := ih (fun x hx => ht x (List.mem_cons_of_mem a hx))
    constructor
    · rw [List.cons_append, List.takeWhile_cons_of_pos ha, ih1]
    · rw [List.cons_append, List.dropWhile_cons_of_pos ha, ih2]

/-- reverseRuns over an all-class block followed by text not starting in the
class: the block is reversed, the remainder processed independently. -/
theorem reverseRuns_all_append (p : Char → Bool) (t rest : List Char)
    (ht : ∀ x ∈ t, p x = true)
    (hrest : ∀ c cs, rest = c :: cs → p c = false) :
    reverseRuns p (t ++ rest) = t.reverse ++ reverseRuns p rest := by
  obtain ⟨h1, h2⟩ := take_drop_all_append p t rest ht hrest
  rw [reverseRuns_eq_take_drop, h1, h2]

/-- The first element surviving dropWhile fails the predicate. -/
theorem dropWhile_head_false (p : Char → Bool) (l : List Char) (c : Char)
    (cs : List Char) (h : l.dropWhile p = c :: cs) : p c = false := by
  have hh := List.head?_dropWhile_not p l
  rw [h] at hh
  simpa using hh

/-- reverseRuns preserves list length (induction on a length bound). -/
theorem reverseRuns_length_aux (p : Char → Bool) :
    ∀ n, ∀ l : List Char, l.length ≤ n → (reverseRuns p l).length = l.length := by
  intro n
  induction n with
  | zero =>
    intro l hl
    have hnil : l = [] := List.eq_nil_of_length_eq_zero (Nat.le_zero.mp hl)
    subst hnil
    simp [reverseRuns_nil]
  | succ n ih =>
    intro l hl
    cases l with
    | nil => simp [reverseRuns_nil]
    | cons c cs =>
      by_cases h : p c = true
      · rw [reverseRuns_eq_take_drop]
        have hd : (c :: cs).dropWhile p = cs.dropWhile p := List.dropWhile_cons_of_pos h
        have hsplit := congrArg List.length (List.takeWhile_append_dropWhile (p := p) (l := c :: cs))
        simp only [List.length_append] at hsplit
        have hsplit2 := congrArg List.length (List.takeWhile_append_dropWhile (p := p) (l := cs))
        simp only [List.length_append] at hsplit2
        have hdn : (cs.dropWhile p).length ≤ n := by
          simp only [List.length_cons] at hl
          omega
        have hrec := ih (cs.dropWhile p) hdn
        rw [hd]
        simp only [List.length_append, List.length_reverse, hrec]
        rw [hd] at hsplit
        omega
      · have hb : p c = false := by simpa using h
        rw [reverseRuns_cons_neg p c cs hb]
        simp only [List.length_cons] at hl ⊢
        rw [ih cs (by omega)]

/-- reverseRuns preserves list length. -/
theorem reverseRuns_length (p : Char → Bool) (l : List Char) :
    (reverseRuns p l).length = l.length :=
  reverseRuns_length_aux p l.length l (Nat.le_refl _)

/-- reverseRuns is an involution: all characters of the leading run stay
contiguous after reversal, so the second pass finds exactly the same runs. -/
theorem reverseRuns_invol_aux (p : Char → Bool) :
    ∀ n, ∀ l : List Char, l.length ≤ n → reverseRuns p (reverseRuns p l) = l := by
  intro n
  induction n with
  | zero =>
    intro l hl
    have hnil : l = [] := List.eq_nil_of_length_eq_zero (Nat.le_zero.mp hl)
    subst hnil
    simp [reverseRuns_nil]
  | succ n ih =>
    intro l hl
    cases l with
    | nil => simp [reverseRuns_nil]
    | cons c cs =>
      by_cases h : p c = true
      · have ht : ∀ x ∈ (c :: cs).takeWhile p, p x = true :=
          fun x hx => List.mem_takeWhile_imp hx
        have htake : (c :: cs).takeWhile p = c :: cs.takeWhile p :=
          List.takeWhile_cons_of_pos h
        have hsplit := congrArg List.length
          (List.takeWhile_append_dropWhile (p := p) (l := c :: cs))
        simp only [List.length_append] at hsplit
        have hdn : ((c :: cs).dropWhile p).length ≤ n := by
          rw [htake] at hsplit
          simp only [List.length_cons] at hsplit hl
          omega
        have hrev : ∀ x ∈ ((c :: cs).takeWhile p).reverse, p x = true := by
          intro x hx
          exact ht x (List.mem_reverse.mp hx)
        have hrest : ∀ e es, reverseRuns p ((c :: cs).dropWhile p) = e :: es → p e = false := by
          intro e es he
          cases hd : (c :: cs).dropWhile p with
          | nil =>
            rw [hd, reverseRuns_nil] at he
            exact absurd he (List.cons_ne_nil e es).symm
          | cons d ds =>
            have hpd : p d = false := dropWhile_head_false p (c :: cs) d ds hd
            rw [hd, reverseRuns_cons_neg p d ds hpd] at he
            injection he with h1 _
            rw [← h1]
            exact hpd
        rw [reverseRuns_eq_take_drop p (c :: cs)]
        rw [reverseRuns_all_append p _ _ hrev hrest]
        rw [List.reverse_reverse, ih _ hdn]
        exact List.takeWhile_append_dropWhile p (c :: cs)
      · have hb : p c = false := by simpa using h
        rw [reverseRuns_cons_neg p c cs hb, reverseRuns_cons_neg p c _ hb]
        simp only [List.length_cons] at hl
        rw [ih cs (by omega)]

/-- reverseRuns is an involution. -/
theorem reverseRuns_involutive (p : Char → Bool) (l : List Char) :
    reverseRuns p (reverseRuns p l) = l :=
  reverseRuns_invol_aux p l.length l (Nat.le_refl _)

/-- The accumulator scan agrees with the takeWhile/dropWhile decomposition:
run holds the reversed prefix of the current match. -/
theorem reverseRunsAux_eq (p : Char → Bool) :
    ∀ l run : List Char,
      reverseRunsAux p run l =
        (run.reverse ++ l.takeWhile p).reverse ++ reverseRuns p (l.dropWhile p) := by
  intro l
  induction l with
  | nil =>
    intro run
    simp [reverseRunsAux, reverseRuns_nil]
  | cons c cs ih =>
    intro run
    by_cases h : p c = true
    · rw [reverseRunsAux]
      simp only [h, if_true]
      rw [ih (c :: run)]
      rw [List.takeWhile_cons_of_pos h, List.dropWhile_cons_of_pos h]
      simp [List.reverse_cons, List.append_assoc]
    · have hb : p c = false := by simpa using h
      rw [reverseRunsAux]
      simp only [hb, Bool.false_eq_true, if_false]
      rw [ih []]
      rw [List.takeWhile_cons_of_neg (by simp [hb]), List.dropWhile_cons_of_neg (by simp [hb])]
      simp only [List.nil_append, List.append_nil, List.reverse_nil]
      rw [← reverseRuns_eq_take_drop, reverseRuns_cons_neg p c cs hb]
      simp

/-- Starting the scan with an empty accumulator computes reverseRuns. -/
theorem reverseRunsAux_nil_eq (p : Char → Bool) (l : List Char) :
    reverseRunsAux p [] l = reverseRuns p l := by
  rw [reverseRunsAux_eq]
  simp only [List.reverse_nil, List.nil_append]
  rw [← reverseRuns_eq_take_drop]

/-- Total of all buckets of a counter mapping (sum(d.values()) in Python). -/
def sumCounts (m : List (String × Nat)) : Nat :=
  (m.map (fun kv => kv.2)).sum

/-- The mutations the driver (id3-rtl-fix.py) performs on a ScriptStats
instance: stats.files_processed += 1 and stats.files_modified += 1 in
process_folder, stats.tags_modified[tag] += 1 in process_audio_tags,
stats.errors.append(msg) at the error sites, and the stats side effect of
reverse_rtl_parts(text, stats), which calls count_characters(text) unless the
text is empty (the function returns before touching stats on empty input). -/
inductive Op where
  | incFilesProcessed : Op
  | incFilesModified : Op
  | incTagModified : String → Op
  | appendError : String → Op
  | processText : String → Op

/-- Effect of one driver operation on the aggregator state. -/
def applyOp (st : ScriptStats) : Op → ScriptStats
  | Op.incFilesProcessed => { st with files_processed := st.files_processed + 1 }
  | Op.incFilesModified => { st with files_modified := st.files_modified + 1 }
  | Op.incTagModified tag => { st with tags_modified := bump st.tags_modified tag }
  | Op.appendError msg => { st with errors := st.errors ++ [msg] }
  | Op.processText text => if text.data.isEmpty then st else st.count_characters text

/-- A whole run: a sequence of driver operations applied in order. -/
def applyOps (st : ScriptStats) (ops : List Op) : ScriptStats :=
  ops.foldl applyOp st

/-- Total number of characters examined across all strings processed by a
sequence of operations. -/
def charsExamined (ops : List Op) : Nat :=
  (ops.map (fun o => match o with | Op.processText t => t.length | _ => 0)).sum

/-- Python's str.join: concatenate the pieces with the separator between
consecutive pieces. -/
def sjoin (sep : String) : List String → String
  | [] => ""
  | [x] => x
  | x :: y :: ys => x ++ sep ++ sjoin sep (y :: ys)

/-- Python format spec of width 15 without a fill character
(left-justified for strings, padded with spaces, never truncated). -/
def padRight (s : String) (w : Nat) : String :=
  s ++ String.mk (List.replicate (w - s.length) ' ')

/-- Grouping step of Python's format spec with a comma: working over the
reversed digit list, insert a comma after every three digits that are followed
by more digits. -/
def commaChunk : List Char → List Char
  | d1 :: d2 :: d3 :: d4 :: rest => d1 :: d2 :: d3 :: ',' :: commaChunk (d4 :: rest)
  | l => l

/-- Python's comma-grouped integer rendering (count:, in the f-string). -/
def commaGroup (n : Nat) : String :=
  String.mk ((commaChunk (toString n).data.reverse).reverse)

/-- Rendering of percentage:5.1f: one decimal digit, right-justified in five
columns.  Python computes (count / total_chars) * 100 in binary floating point
and rounds when formatting; this embedding uses the exact integer number of
tenths instead.  No claim in this development depends on the rendered digits. -/
def fmtPercent (count total : Nat) : String :=
  let tenths := count * 1000 / total
  let s := toString (tenths / 10) ++ "." ++ toString (tenths % 10)
  String.mk (List.replicate (5 - s.length) ' ') ++ s

/-- Bar of int((count / total) * max_bar_length) full-block characters
(U+2588), as in the visualization loop; int() truncates, matching Nat
division on exact values. -/
def barOf (count total maxLen : Nat) : String :=
  String.mk (List.replicate (count * maxLen / total) (Char.ofNat 0x2588))

/-- Insertion step of a comparison sort. -/
def insertSorted (le : α → α → Bool) (a : α) : List α → List α
  | [] => [a]
  | b :: bs => if le a b then a :: b :: bs else b :: insertSorted le a bs

/-- Comparison sort modelling Python's sorted(); the orders used below compare
unique keys, so any comparison sort produces the same list as Python's stable
sort. -/
def sortByLe (le : α → α → Bool) : List α → List α
  | [] => []
  | a :: as => insertSorted le a (sortByLe le as)

/-- The sort key of create_distribution_visualization: ascending in the pair
(name == "Non-RTL", -count), i.e. "Non-RTL" forced last, otherwise larger
counts first. -/
def distLe (a b : String × Nat) : Bool :=
  (!(a.1 == ("Non-RTL")) && (b.1 == ("Non-RTL"))) ||
    (((a.1 == ("Non-RTL")) == (b.1 == ("Non-RTL"))) && decide (b.2 ≤ a.2))

/-- sorted(d.items()) on a dict: ascending in the key; keys are unique, so the
second component never takes part in Python's tuple comparison. -/
def keyLe (a b : String × α) : Bool :=
  decide (a.1 < b.1)

/-- ScriptStats.create_distribution_visualization (stats-collector.py lines
30-55): the fixed message when nothing was counted, otherwise a header, a rule
of sixty dashes and one line per bucket in distLe order. -/
def ScriptStats.create_distribution_visualization (st : ScriptStats) : String :=
  if st.characters_counted.isEmpty then ("No text analysis available.")
  else
    let total_chars := sumCounts st.characters_counted
    let max_bar_length := 40
    let sorted_items := sortByLe distLe st.characters_counted
    sjoin ("\n")
      (("Character Distribution (by script):") ::
       String.mk (List.replicate 60 '-') ::
       sorted_items.map (fun sc =>
         padRight sc.1 15 ++ (" ") ++ barOf sc.2 total_chars max_bar_length ++ (" ") ++
         fmtPercent sc.2 total_chars ++ ("% (") ++ commaGroup sc.2 ++ (" chars)")))

/-- The report list built by ScriptStats.to_report (stats-collector.py lines
57-87) before the final join: header and file counters, then the tag section
when tags_modified is non-empty, then the scripts-found section (with its
nested by-field breakdown) when scripts_found is non-empty, then the
distribution visualization, then the error section when errors is non-empty. -/
def ScriptStats.report_lines (st : ScriptStats) : List String :=
  [("\n=== Processing Report ==="),
   ("Files processed: ") ++ toString st.files_processed,
   ("Files modified: ") ++ toString st.files_modified]
  ++ (if st.tags_modified.isEmpty then [] else
       ("\nModified Tags Count:") ::
       (sortByLe keyLe st.tags_modified).map
         (fun tc => ("  ") ++ tc.1 ++ (": ") ++ toString tc.2))
  ++ (if st.scripts_found.isEmpty then [] else
       (("\nRTL Scripts Found:") ::
        (sortByLe keyLe st.scripts_found).map
          (fun sc => ("  ") ++ sc.1 ++ (": ") ++ toString sc.2 ++ (" occurrences")))
       ++ (("\nScripts by Field:") ::
        (sortByLe keyLe st.script_by_field).flatMap
          (fun fs =>
            (("\n  ") ++ fs.1 ++ (":")) ::
            (sortByLe keyLe fs.2).map
              (fun sc => ("    ") ++ sc.1 ++ (": ") ++ toString sc.2))))
  ++ [("\n") ++ st.create_distribution_visualization]
  ++ (if st.errors.isEmpty then [] else
       ("\nErrors Encountered:") :: st.errors.map (fun e => ("  - ") ++ e))

/-- ScriptStats.to_report: the report lines joined with newlines. -/
def ScriptStats.to_report (st : ScriptStats) : String :=
  sjoin ("\n") st.report_lines

/-- State-passing embedding of the create_distribution_visualization method:
its body reads self.characters_counted and builds local data; it contains no
assignment to any field of self, so the resulting state is the incoming one. -/
def ScriptStats.create_distribution_visualization_run (st : ScriptStats) : String × ScriptStats :=
  (st.create_distribution_visualization, st)

/-- State-passing embedding of the to_report method: it reads the counters and
mappings, appends to a local list and calls create_distribution_visualization;
no statement assigns to a field of self, so the resulting state is the incoming
one. -/
def ScriptStats.to_report_run (st : ScriptStats) : String × ScriptStats :=
  (sjoin ("\n") (st.create_distribution_visualization_run).2.report_lines,
   (st.create_distribution_visualization_run).2)

/-- The character data of reverse_rtl_parts is reverseRuns applied to the
input's data, in the empty branch as well. -/
theorem reverse_rtl_parts_data (s : String) :
    (reverse_rtl_parts s).data = reverseRuns isRTLMatch s.data := by
  rw [reverse_rtl_parts]
  by_cases h : s.data.isEmpty
  · rw [if_pos h]
    have hnil : s.data = [] := List.isEmpty_iff.mp h
    rw [hnil, reverseRuns_nil]
  · rw [if_neg h]
    exact reverseRunsAux_nil_eq isRTLMatch s.data

/-- C1.  The claim says every string with no character in an RTL range of the
table — in particular any pure-ASCII string — is returned unchanged.  The code
violates it: the truncated five-digit escapes put the range '0'-U+1085 into the
regex character class, so the ASCII-only input "Hello" is itself a detected run
and comes back reversed. -/
theorem C1_ascii_string_is_reversed :
    reverse_rtl_parts ("Hello") = ("olleH") ∧ ("olleH" : String) ≠ ("Hello") := by
  constructor
  · decide
  · decide

/-- C2.  The claim says reverse_rtl_parts on the exact text
"Hello שלום World" yields "Hello םולש World" with the Latin words untouched.
The code instead also reverses both Latin words, returning
"olleH םולש dlroW". -/
theorem C2_hello_shalom_world_eval :
    reverse_rtl_parts ("Hello שלום World") =
      ("olleH םולש dlroW") ∧
    ("olleH םולש dlroW" : String) ≠
      ("Hello םולש World") := by
  constructor
  · decide
  · decide

/-- C3.  The claim says the regex run-membership test of build_rtl_pattern and
the classifier of count_characters agree on every character.  They do not: the
character '0' is inside the compiled class (via the corrupt range '0'-U+1085)
but the classifier puts it in no script bucket. -/
theorem C3_membership_tests_disagree :
    isRTLMatch ('0') = true ∧ classify ('0') = none := by
  constructor
  · decide
  · decide

/-- C4.  The claim says every Phoenician code point (U+10900-U+1091F) gets the
name "Phoenician" and everything outside all listed ranges is Non-RTL.  In the
code the astral bounds are two-character strings compared lexicographically, so
U+10900 classifies as none (Non-RTL) while the unlisted BMP character U+1085
spuriously classifies as Imperial Aramaic. -/
theorem C4_classifier_misclassifies_ancient_scripts :
    classify (Char.ofNat 0x10900) = none ∧
    classify (Char.ofNat 0x1085) = some ("Imperial Aramaic") := by
  constructor
  · decide
  · decide

/-- C5.  reverse_rtl_parts preserves the length of every string: the output is
the concatenation of the input's gap segments and reversed run segments, and
reversal does not change a segment's length. -/
theorem C5_length_preserved (s : String) :
    (reverse_rtl_parts s).length = s.length := by
  have h := congrArg List.length (reverse_rtl_parts_data s)
  rw [reverseRuns_length] at h
  exact h

/-- C6.  reverse_rtl_parts is an involution: run membership depends only on the
characters present, and reversing a run keeps its characters contiguous, so a
second pass finds the same runs and undoes the first reversal. -/
theorem C6_reverse_rtl_parts_involutive (s : String) :
    reverse_rtl_parts (reverse_rtl_parts s) = s := by
  have h1 : (reverse_rtl_parts (reverse_rtl_parts s)).data = s.data := by
    rw [reverse_rtl_parts_data, reverse_rtl_parts_data]
    exact reverseRuns_involutive isRTLMatch s.data
  cases s with
  | mk d =>
    cases hr : reverse_rtl_parts (reverse_rtl_parts (String.mk d)) with
    | mk d2 =>
      rw [hr] at h1
      exact congrArg String.mk (by simpa using h1)

/-- Bumping a bucket adds exactly one to the total. -/
theorem bump_sum (m : List (String × Nat)) (k : String) :
    sumCounts (bump m k) = sumCounts m + 1 := by
  induction m with
  | nil => simp [bump, sumCounts]
  | cons kv rest ih =>
    obtain ⟨k', v⟩ := kv
    by_cases h : k' = k
    · simp only [bump, if_pos h, sumCounts, List.map_cons, List.sum_cons]
      simp only [sumCounts] at ih ⊢
      omega
    · simp only [bump, if_neg h, sumCounts, List.map_cons, List.sum_cons]
      simp only [sumCounts] at ih ⊢
      omega

/-- Tallying one character adds exactly one to the character total. -/
theorem countChar_sum (st : ScriptStats) (c : Char) :
    sumCounts (st.countChar c).characters_counted =
      sumCounts st.characters_counted + 1 := by
  rw [ScriptStats.countChar]
  exact bump_sum _ _

/-- Folding the tally over a character list adds the list's length to the
character total. -/
theorem foldl_countChar_sum :
    ∀ (l : List Char) (st : ScriptStats),
      sumCounts ((List.foldl ScriptStats.countChar st l).characters_counted) =
        sumCounts st.characters_counted + l.length := by
  intro l
  induction l with
  | nil => intro st; simp
  | cons c cs ih =>
    intro st
    rw [List.foldl_cons, ih, countChar_sum]
    simp only [List.length_cons]
    omega

/-- count_characters adds the text's length to the character total. -/
theorem count_characters_sum (st : ScriptStats) (text : String) :
    sumCounts (st.count_characters text).characters_counted =
      sumCounts st.characters_counted + text.length := by
  rw [ScriptStats.count_characters, foldl_countChar_sum]
  rfl

/-- Per-operation effect on the character total: only processText changes it,
by the length of its text. -/
theorem applyOp_sum (st : ScriptStats) (o : Op) :
    sumCounts (applyOp st o).characters_counted =
      sumCounts st.characters_counted +
        (match o with | Op.processText t => t.length | _ => 0) := by
  cases o with
  | incFilesProcessed => simp [applyOp]
  | incFilesModified => simp [applyOp]
  | incTagModified tag => simp [applyOp]
  | appendError msg => simp [applyOp]
  | processText t =>
    simp only [applyOp]
    by_cases h : t.data.isEmpty = true
    · rw [if_pos h]
      have h0 : t.data = [] := List.isEmpty_iff.mp h
      have hl : t.length = 0 := by
        have : t.length = t.data.length := rfl
        rw [this, h0]
        rfl
      omega
    · rw [if_neg h, count_characters_sum]

/-- Over a whole operation sequence the character total grows by the number of
characters examined. -/
theorem applyOps_sum :
    ∀ (ops : List Op) (st : ScriptStats),
      sumCounts (applyOps st ops).characters_counted =
        sumCounts st.characters_counted + charsExamined ops := by
  intro ops
  induction ops with
  | nil => intro st; simp [applyOps, charsExamined]
  | cons o os ih =>
    intro st
    simp only [applyOps, List.foldl_cons]
    have hrec := ih (applyOp st o)
    simp only [applyOps] at hrec
    rw [hrec, applyOp_sum]
    simp only [charsExamined, List.map_cons, List.sum_cons]
    omega

/-- C7.  count_characters puts every character of its text into exactly one
bucket, so each call adds the text's length to the characters_counted total,
and after any sequence of driver operations starting from a fresh aggregator
the total of charactersCounted (all buckets are naturals, hence non-negative)
equals the total number of characters examined across all processed strings. -/
theorem C7_characters_counted_total :
    (∀ (st : ScriptStats) (text : String),
        sumCounts (st.count_characters text).characters_counted =
          sumCounts st.characters_counted + text.length) ∧
    (∀ ops : List Op,
        sumCounts (applyOps ScriptStats.init ops).characters_counted =
          charsExamined ops) := by
  constructor
  · exact count_characters_sum
  · intro ops
    rw [applyOps_sum]
    simp [ScriptStats.init, sumCounts]

/-- Bumping preserves the invariant that every bucket holds at least one. -/
theorem bump_pos (m : List (String × Nat)) (k : String)
    (h : ∀ kv ∈ m, 1 ≤ kv.2) : ∀ kv ∈ bump m k, 1 ≤ kv.2 := by
  induction m with
  | nil =>
    intro kv hkv
    simp only [bump, List.mem_singleton] at hkv
    rw [hkv]
  | cons kv0 rest ih =>
    obtain ⟨k', v⟩ := kv0
    intro kv hkv
    by_cases hk : k' = k
    · rw [bump, if_pos hk] at hkv
      rcases List.mem_cons.mp hkv with h1 | h1
      · rw [h1]
        exact Nat.le_add_left 1 v
      · exact h kv (List.mem_cons_of_mem _ h1)
    · rw [bump, if_neg hk] at hkv
      rcases List.mem_cons.mp hkv with h1 | h1
      · rw [h1]
        exact h (k', v) (List.mem_cons_self _ _)
      · exact ih (fun kv2 hkv2 => h kv2 (List.mem_cons_of_mem _ hkv2)) kv h1

/-- The tally loop preserves the bucket positivity invariant. -/
theorem foldl_countChar_pos :
    ∀ (l : List Char) (st : ScriptStats),
      (∀ kv ∈ st.characters_counted, 1 ≤ kv.2) →
      ∀ kv ∈ (List.foldl ScriptStats.countChar st l).characters_counted, 1 ≤ kv.2 := by
  intro l
  induction l with
  | nil => intro st h; exact h
  | cons c cs ih =>
    intro st h
    rw [List.foldl_cons]
    exact ih _ (bump_pos _ _ h)

/-- Every driver operation preserves the bucket positivity invariant. -/
theorem applyOp_cc_pos (st : ScriptStats) (o : Op)
    (h : ∀ kv ∈ st.characters_counted, 1 ≤ kv.2) :
    ∀ kv ∈ (applyOp st o).characters_counted, 1 ≤ kv.2 := by
  cases o with
  | incFilesProcessed => exact h
  | incFilesModified => exact h
  | incTagModified tag => exact h
  | appendError msg => exact h
  | processText t =>
    simp only [applyOp]
    by_cases he : t.data.isEmpty = true
    · rw [if_pos he]; exact h
    · rw [if_neg he]
      exact foldl_countChar_pos t.data st h

/-- After any operation sequence from a fresh aggregator, every
characters_counted bucket holds at least one. -/
theorem applyOps_cc_pos (ops : List Op) :
    ∀ kv ∈ (applyOps ScriptStats.init ops).characters_counted, 1 ≤ kv.2 := by
  have aux : ∀ (os : List Op) (st : ScriptStats),
      (∀ kv ∈ st.characters_counted, 1 ≤ kv.2) →
      ∀ kv ∈ (applyOps st os).characters_counted, 1 ≤ kv.2 := by
    intro os
    induction os with
    | nil => intro st h; exact h
    | cons o os2 ih =>
      intro st h
      simp only [applyOps, List.foldl_cons]
      exact ih (applyOp st o) (applyOp_cc_pos st o h)
  exact aux ops ScriptStats.init (by intro kv hkv; simp [ScriptStats.init] at hkv)

/-- A non-empty mapping whose buckets all hold at least one has positive
total. -/
theorem sumCounts_pos (m : List (String × Nat))
    (h1 : ∀ kv ∈ m, 1 ≤ kv.2) (h2 : m ≠ []) : 0 < sumCounts m := by
  cases m with
  | nil => exact absurd rfl h2
  | cons kv rest =>
    have := h1 kv (List.mem_cons_self _ _)
    simp only [sumCounts, List.map_cons, List.sum_cons]
    omega

/-- C8.  With an empty characters_counted, create_distribution_visualization
returns the fixed message "No text analysis available." without computing any
percentage, and in every state reachable by driver operations a non-empty
characters_counted has a positive total, so the divisions by total_chars only
ever run with a positive divisor. -/
theorem C8_zero_total_guarded :
    (∀ st : ScriptStats, st.characters_counted = [] →
        st.create_distribution_visualization = ("No text analysis available.")) ∧
    (∀ ops : List Op,
        (applyOps ScriptStats.init ops).characters_counted ≠ [] →
        0 < sumCounts (applyOps ScriptStats.init ops).characters_counted) := by
  constructor
  · intro st h
    rw [ScriptStats.create_distribution_visualization, if_pos (by rw [h]; rfl)]
  · intro ops h
    exact sumCounts_pos _ (applyOps_cc_pos ops) h

/-- Witness for C8: the fresh aggregator renders the fixed message, and after
processing the one-character text "a" the total is positive. -/
theorem C8_zero_total_guarded_witness :
    ScriptStats.init.create_distribution_visualization =
      ("No text analysis available.") ∧
    0 < sumCounts (applyOps ScriptStats.init [Op.processText ("a")]).characters_counted :=
  ⟨C8_zero_total_guarded.1 ScriptStats.init rfl,
   C8_zero_total_guarded.2 [Op.processText ("a")] (by decide)⟩

/-- C9.  Rendering reads but never writes the aggregator: the state-passing
embeddings of to_report and create_distribution_visualization return the
incoming state unchanged, so rendering the report twice with no mutation in
between yields identical strings. -/
theorem C9_rendering_never_mutates (st : ScriptStats) :
    (st.to_report_run).2 = st ∧
    (st.create_distribution_visualization_run).2 = st ∧
    ((st.to_report_run).2.to_report_run).1 = (st.to_report_run).1 :=
  ⟨rfl, rfl, rfl⟩

/-- The tally loop never touches scripts_found or script_by_field. -/
theorem foldl_countChar_keeps :
    ∀ (l : List Char) (st : ScriptStats),
      (List.foldl ScriptStats.countChar st l).scripts_found = st.scripts_found ∧
      (List.foldl ScriptStats.countChar st l).script_by_field = st.script_by_field := by
  intro l
  induction l with
  | nil => intro st; exact ⟨rfl, rfl⟩
  | cons c cs ih => intro st; exact ih (st.countChar c)

/-- No driver operation touches scripts_found or script_by_field. -/
theorem applyOp_keeps (st : ScriptStats) (o : Op) :
    (applyOp st o).scripts_found = st.scripts_found ∧
    (applyOp st o).script_by_field = st.script_by_field := by
  cases o with
  | incFilesProcessed => exact ⟨rfl, rfl⟩
  | incFilesModified => exact ⟨rfl, rfl⟩
  | incTagModified tag => exact ⟨rfl, rfl⟩
  | appendError msg => exact ⟨rfl, rfl⟩
  | processText t =>
    simp only [applyOp]
    by_cases he : t.data.isEmpty = true
    · rw [if_pos he]; exact ⟨rfl, rfl⟩
    · rw [if_neg he]
      exact foldl_countChar_keeps t.data st

/-- After any operation sequence from a fresh aggregator, scripts_found and
script_by_field are still empty. -/
theorem applyOps_keeps (ops : List Op) :
    (applyOps ScriptStats.init ops).scripts_found = [] ∧
    (applyOps ScriptStats.init ops).script_by_field = [] := by
  have aux : ∀ (os : List Op) (st : ScriptStats),
      (applyOps st os).scripts_found = st.scripts_found ∧
      (applyOps st os).script_by_field = st.script_by_field := by
    intro os
    induction os with
    | nil => intro st; exact ⟨rfl, rfl⟩
    | cons o os2 ih =>
      intro st
      simp only [applyOps, List.foldl_cons]
      have h1 := ih (applyOp st o)
      simp only [applyOps] at h1
      have h2 := applyOp_keeps st o
      exact ⟨h1.1.trans h2.1, h1.2.trans h2.2⟩
  exact aux ops ScriptStats.init

/-- A string starting with character c keeps that first character under
appending on the right. -/
theorem head?_append_left (a t : String) (c : Char) (ha : a.data.head? = some c) :
    (a ++ t).data.head? = some c := by
  rw [String.data_append]
  cases hd : a.data with
  | nil => rw [hd] at ha; exact absurd ha (by simp)
  | cons x xs =>
    rw [hd] at ha
    rw [List.cons_append]
    simpa using ha

/-- Strings whose first characters differ are different. -/
theorem ne_of_head?_ne (x b : String) (c : Char) (hx : x.data.head? = some c)
    (hb : b.data.head? ≠ some c) : x ≠ b := by
  intro h
  rw [h] at hx
  exact hb hx

/-- A string with a long prefix cannot equal a shorter string. -/
theorem ne_of_longer (a t b : String) (h : b.length < a.length) : a ++ t ≠ b := by
  intro he
  have hl := congrArg String.length he
  rw [String.length_append] at hl
  omega

/-- Joining a non-empty list yields the first piece followed by a remainder. -/
theorem sjoin_cons_eq (sep x : String) (xs : List String) :
    ∃ t, sjoin sep (x :: xs) = x ++ t := by
  cases xs with
  | nil => exact ⟨"", (String.append_empty x).symm⟩
  | cons y ys =>
    refine ⟨sep ++ sjoin sep (y :: ys), ?_⟩
    rw [sjoin, String.append_assoc]

/-- A visualization body (header joined with anything) is longer than 35
characters and hence differs from any shorter string. -/
theorem newline_sjoin_hdr_ne (ls : List String) (b : String) (hb : b.length < 36) :
    ("\n") ++ sjoin ("\n") (("Character Distribution (by script):") :: ls) ≠ b := by
  obtain ⟨t, ht⟩ := sjoin_cons_eq ("\n") ("Character Distribution (by script):") ls
  rw [ht, ← String.append_assoc]
  apply ne_of_longer
  have h36 : ((("\n") ++ ("Character Distribution (by script):")) : String).length = 36 := by
    decide
  omega

/-- The visualization line of the report never equals a short string other than
the fixed empty-analysis line. -/
theorem viz_line_ne (st : ScriptStats) (b : String)
    (hb1 : ((("\n") ++ ("No text analysis available.")) : String) ≠ b)
    (hb2 : b.length < 36) :
    ("\n") ++ st.create_distribution_visualization ≠ b := by
  rw [ScriptStats.create_distribution_visualization]
  by_cases h : st.characters_counted.isEmpty = true
  · rw [if_pos h]; exact hb1
  · rw [if_neg h]
    exact newline_sjoin_hdr_ne _ b hb2

/-- When scripts_found is empty, neither section header of the scripts block
occurs among the report lines. -/
theorem report_lines_no_rtl_sections (st : ScriptStats) (h : st.scripts_found = []) :
    (("\nRTL Scripts Found:" : String) ∉ st.report_lines) ∧
    (("\nScripts by Field:" : String) ∉ st.report_lines) := by
  have key : ∀ x ∈ st.report_lines,
      x ≠ ("\nRTL Scripts Found:") ∧ x ≠ ("\nScripts by Field:") := by
    intro x hx
    rw [ScriptStats.report_lines] at hx
    have hse : st.scripts_found.isEmpty = true := by rw [h]; rfl
    rw [if_pos hse] at hx
    simp only [List.append_assoc, List.mem_append, List.mem_cons, List.mem_singleton,
      List.not_mem_nil, or_false, false_or] at hx
    rcases hx with (rfl | rfl | rfl) | hx | rfl | hx
    · exact ⟨by decide, by decide⟩
    · have hh := head?_append_left ("Files processed: ") (toString st.files_processed) 'F'
        (by decide)
      exact ⟨ne_of_head?_ne _ _ 'F' hh (by decide), ne_of_head?_ne _ _ 'F' hh (by decide)⟩
    · have hh := head?_append_left ("Files modified: ") (toString st.files_modified) 'F'
        (by decide)
      exact ⟨ne_of_head?_ne _ _ 'F' hh (by decide), ne_of_head?_ne _ _ 'F' hh (by decide)⟩
    · by_cases htm : st.tags_modified.isEmpty = true
      · rw [if_pos htm] at hx
        exact absurd hx (List.not_mem_nil x)
      · rw [if_neg htm] at hx
        rcases List.mem_cons.mp hx with rfl | hx
        · exact ⟨by decide, by decide⟩
        · obtain ⟨tc, _, rfl⟩ := List.mem_map.mp hx
          have hh0 : (("  ") : String).data.head? = some ' ' := by decide
          have hh1 := head?_append_left ("  ") tc.1 ' ' hh0
          have hh2 := head?_append_left (("  ") ++ tc.1) (": ") ' ' hh1
          have hh3 := head?_append_left ((("  ") ++ tc.1) ++ (": ")) (toString tc.2) ' ' hh2
          exact ⟨ne_of_head?_ne _ _ ' ' hh3 (by decide), ne_of_head?_ne _ _ ' ' hh3 (by decide)⟩
    · exact ⟨viz_line_ne st _ (by decide) (by decide), viz_line_ne st _ (by decide) (by decide)⟩
    · by_cases her : st.errors.isEmpty = true
      · rw [if_pos her] at hx
        exact absurd hx (List.not_mem_nil x)
      · rw [if_neg her] at hx
        rcases List.mem_cons.mp hx with rfl | hx
        · exact ⟨by decide, by decide⟩
        · obtain ⟨e, _, rfl⟩ := List.mem_map.mp hx
          have hh0 : (("  - ") : String).data.head? = some ' ' := by decide
          have hh1 := head?_append_left ("  - ") e ' ' hh0
          exact ⟨ne_of_head?_ne _ _ ' ' hh1 (by decide), ne_of_head?_ne _ _ ' ' hh1 (by decide)⟩
  constructor
  · intro hmem
    exact (key _ hmem).1 rfl
  · intro hmem
    exact (key _ hmem).2 rfl

/-- C10.  No operation of the program ever writes to scripts_found or
script_by_field: starting from a fresh aggregator, any sequence of driver
operations leaves both mappings empty, and consequently to_report's line list
never contains the "RTL Scripts Found" or "Scripts by Field" section
headers. -/
theorem C10_scripts_found_never_populated (ops : List Op) :
    (applyOps ScriptStats.init ops).scripts_found = [] ∧
    (applyOps ScriptStats.init ops).script_by_field = [] ∧
    (("\nRTL Scripts Found:" : String) ∉ (applyOps ScriptStats.init ops).report_lines) ∧
    (("\nScripts by Field:" : String) ∉ (applyOps ScriptStats.init ops).report_lines) := by
  obtain ⟨h1, h2⟩ := applyOps_keeps ops
  obtain ⟨m1, m2⟩ := report_lines_no_rtl_sections _ h1
  exact ⟨h1, h2, m1, m2⟩

end RtlUtils
